import Mathlib

/-!
Shallow embedding of the CPU-watcher / rolling-window statistics core of
the `cagent` monitoring agent (Go package `cagent`, file embedding
`TimeSeriesAverage` and `CPUWatcher`).

Conventions of the embedding:
* Go `float64` metric values and timestamps are modelled as `ℚ`
  (timestamps in seconds); all the spec's numeric scenarios are exact.
* Go maps (`map[string]float64`) are modelled as association lists with
  Go read semantics: a read of a missing key yields the zero value `0`,
  and a write upserts (`vset`).
* Go runtime panics (slice index out of range) are modelled by `Option`:
  `none` is a panic.
* `time.Duration` arithmetic: `measureInterval = 5` seconds,
  `minutes d = 60 * d` seconds; the Go expression
  `int64(d) * int64(time.Minute) / int64(measureInterval)` equals `12 * d`
  exactly for every integer `d` (nanosecond division is exact here).
-/

set_option maxRecDepth 100000

namespace Cagent

/-- Go: `const measureInterval = time.Second * 5` (seconds). -/
def measureInterval : ℤ := 5

/-- Go: `type ValuesMap map[string]float64`, as an association list with
at most one binding per key. -/
abbrev ValuesMap := List (String × ℚ)

/-- Association-list lookup (the reader of our Go-map model). -/
def lookupG {α β : Type} [DecidableEq α] : List (α × β) → α → Option β
  | [], _ => none
  | (k', v) :: rest, k => if k' = k then some v else lookupG rest k

/-- Go map read: missing key yields the zero value. -/
def vget (m : ValuesMap) (k : String) : ℚ :=
  match lookupG m k with
  | some v => v
  | none => 0

/-- Key membership in a Go map (`_, ok := m[k]`). -/
def vmem (m : ValuesMap) (k : String) : Bool :=
  (lookupG m k).isSome

/-- Generic Go-map write: upsert, keeping at most one binding per key. -/
def upsertG {α β : Type} [DecidableEq α] (m : List (α × β)) (k : α) (v : β) :
    List (α × β) :=
  match m with
  | [] => [(k, v)]
  | (k', v') :: rest =>
      if k' = k then (k, v) :: rest else (k', v') :: upsertG rest k v

/-- Go map write for `ValuesMap`. -/
def vset (m : ValuesMap) (k : String) (v : ℚ) : ValuesMap :=
  upsertG m k v

/-- Go: `type TimeValue struct { Time time.Time; Values ValuesMap }`. -/
structure TimeValue where
  time : ℚ
  values : ValuesMap

/-- Go: `type TimeSeriesAverage struct { TimeSeries []TimeValue; mu sync.Mutex;
_DurationInMinutes []int }` (the mutex is modelled separately, see the
lock-trace embedding below). -/
structure TimeSeriesAverage where
  timeSeries : List TimeValue
  durationInMinutes : List ℤ

/-- Go: `func minutes(mins int) time.Duration` — here in seconds. -/
def minutes (mins : ℤ) : ℚ := 60 * mins

/-- Ascending sort of a list of ints, the model of Go `sort.Ints` (on a
linear order the sorted permutation is unique, so any correct sort is the
same function). -/
def sortInts (l : List ℤ) : List ℤ := List.insertionSort (· ≤ ·) l

/-- Go: `func (tsa *TimeSeriesAverage) SetDurationsMinutes(durations ...int)`.
`tsa._DurationInMinutes = durations` aliases the variadic slice, and the
subsequent `sort.Ints(durations)` sorts that same backing array, so the
stored list ends up sorted ascending. -/
def setDurationsMinutes (tsa : TimeSeriesAverage) (durations : List ℤ) :
    TimeSeriesAverage :=
  { tsa with durationInMinutes := sortInts durations }

/-- The pruning loop of `TimeSeriesAverage.Add`: drop the head while
`now - head.Time > minutes(_DurationInMinutes[len-1])`.  Indexing
`_DurationInMinutes[len(...)-1]` panics (`none`) when the duration list is
empty; the `&&` short-circuit means the index is only evaluated while the
series is non-empty. -/
def addPrune (now : ℚ) (durations : List ℤ) :
    List TimeValue → Option (List TimeValue)
  | [] => some []
  | tv :: rest =>
      match durations.getLast? with
      | none => none
      | some maxd =>
          if now - tv.time > minutes maxd then addPrune now durations rest
          else some (tv :: rest)

/-- Go: `func (tsa *TimeSeriesAverage) Add(t time.Time, valuesMap ValuesMap)`.
`now` is the wall clock read by `time.Since`; `t` is the timestamp the
caller passes (in `Once`, both are `time.Now()` of the same instant).
Returns `none` when the pruning loop panics on an empty duration list. -/
def add (now t : ℚ) (valuesMap : ValuesMap) (tsa : TimeSeriesAverage) :
    Option TimeSeriesAverage :=
  match addPrune now tsa.durationInMinutes tsa.timeSeries with
  | none => none
  | some pruned =>
      some { tsa with timeSeries := pruned ++ [⟨t, valuesMap⟩] }

/-- Go `int64(x)` conversion of a float: truncation toward zero.  For a
rational `num/den` in lowest terms with `den > 0`, T-division `Int.div`
truncates toward zero. -/
def itrunc (q : ℚ) : ℤ := Int.tdiv q.num (q.den : ℤ)

/-- The per-key arithmetic of `TimeSeriesAverage.Percentage`:
`float64(int64(((lastVal-refVal)/dt)*10000+0.5))/10000`. -/
def percEntryVal (lastVal refVal dt : ℚ) : ℚ :=
  (itrunc (((lastVal - refVal) / dt) * 10000 + 1/2) : ℚ) / 10000

/-- `for key, lastVal := range last.Values` writing `f key lastVal` into the
accumulator map: the shape of both inner loops of `Percentage`. -/
def vsetLoop (f : String → ℚ → ℚ) : List (String × ℚ) → ValuesMap → ValuesMap
  | [], acc => acc
  | kv :: rest, acc => vsetLoop f rest (vset acc kv.1 (f kv.1 kv.2))

/-- One duration's inner loop of `Percentage` over the keys of the last
snapshot.  `keyInt := len(TimeSeries) - int(int64(d)*int64(time.Minute)/
int64(measureInterval)) = len - 12*d`.  If `keyInt < 0` every key gets the
sentinel `-1`; otherwise `TimeSeries[keyInt]` is read (`none` models the
index-out-of-range panic when `keyInt ≥ len`). -/
def percForDuration (series : List TimeValue) (last : TimeValue) (d : ℤ) :
    Option ValuesMap :=
  let keyInt : ℤ := (series.length : ℤ) - 12 * d
  if keyInt < 0 then
    some (vsetLoop (fun _ _ => -1) last.values [])
  else
    match series.get? keyInt.toNat with
    | none => none
    | some ref =>
        some (vsetLoop
          (fun k lastVal =>
            percEntryVal lastVal (vget ref.values k) (last.time - ref.time))
          last.values [])

/-- The `for _, d := range tsa._DurationInMinutes` loop of `Percentage`,
assigning `sum[d]`. -/
def percLoop (series : List TimeValue) (last : TimeValue) :
    List ℤ → List (ℤ × ValuesMap) → Option (List (ℤ × ValuesMap))
  | [], m => some m
  | d :: ds, m =>
      match percForDuration series last d with
      | none => none
      | some vm => percLoop series last ds (upsertG m d vm)

/-- Go: `func (tsa *TimeSeriesAverage) Percentage() (map[int]ValuesMap, error)`.
Outer `none` models a runtime panic; `Except.error` the returned error;
`Except.ok` the returned map keyed by duration. -/
def percentage (tsa : TimeSeriesAverage) :
    Option (Except String (List (ℤ × ValuesMap))) :=
  match tsa.timeSeries.getLast? with
  | none => some (Except.error "CPU metrics are not collected yet")
  | some last =>
      match percLoop tsa.timeSeries last tsa.durationInMinutes [] with
      | none => none
      | some m => some (Except.ok m)

/-- `strings.ToLower` (structurally recursive over the characters, so that
concrete instances reduce). -/
def goToLower (s : String) : String := ⟨s.data.map Char.toLower⟩

/-- Go: record returned per core by `cpu.TimesWithContext` (the fields the
switch in `Once` reads). -/
structure CpuTimes where
  system : ℚ := 0
  user : ℚ := 0
  nice : ℚ := 0
  idle : ℚ := 0
  iowait : ℚ := 0
  irq : ℚ := 0
  softirq : ℚ := 0
  steal : ℚ := 0

/-- The `switch utype` of `CPUWatcher.Once`: the field selected for a
(lower-cased) utilisation type, `none` for the `default: continue` arm. -/
def cpuTimeField (ct : CpuTimes) : String → Option ℚ
  | "system" => some ct.system
  | "user" => some ct.user
  | "nice" => some ct.nice
  | "idle" => some ct.idle
  | "iowait" => some ct.iowait
  | "irq" => some ct.irq
  | "softirq" => some ct.softirq
  | "steal" => some ct.steal
  | _ => none

/-- The fixed key list of the total-averaging loop in `Once` (note
`interrupt`, not `irq`). -/
def totalKeys : List String :=
  ["system.%d.total", "user.%d.total", "nice.%d.total", "idle.%d.total",
   "iowait.%d.total", "interrupt.%d.total", "softirq.%d.total",
   "steal.%d.total"]

/-- The `ValuesMap` built by `CPUWatcher.Once` from the per-core times:
the double loop filling `values["<type>.%d.cpu<i>"]` and accumulating
`values["<type>.%d.total"]`, followed by the loop dividing each key of
`totalKeys` by the number of cores (which, in Go, creates the key with
value `0/len` when it was absent). -/
def onceValues (utilTypes : List String) (times : List CpuTimes) : ValuesMap :=
  let afterLoop :=
    times.enum.foldl
      (fun acc p =>
        utilTypes.foldl
          (fun acc2 utype =>
            let u := goToLower utype
            match cpuTimeField p.2 u with
            | none => acc2
            | some value =>
                let acc3 := vset acc2 (u ++ ".%d.cpu" ++ toString p.1) value
                vset acc3 (u ++ ".%d.total")
                  (vget acc3 (u ++ ".%d.total") + value))
          acc)
      []
  totalKeys.foldl
    (fun acc k => vset acc k (vget acc k / (times.length : ℚ)))
    afterLoop

/-- Go: `type CPUWatcher struct { LoadAvg1, LoadAvg5, LoadAvg15 bool;
UtilAvg TimeSeriesAverage; UtilTypes []string }`. -/
structure CPUWatcher where
  loadAvg1 : Bool := false
  loadAvg5 : Bool := false
  loadAvg15 : Bool := false
  utilAvg : TimeSeriesAverage
  utilTypes : List String := []

/-- Go: `func (stat *CPUWatcher) Once() error`.  `queryResult` is the
outcome of the OS CPU-times query (bounded by the 10s timeout); on error
`Once` returns it without appending (and, in the real code, without
unlocking — see the lock-trace embedding).  Outer `none` models the panic
of `Add` on an empty duration list. -/
def once (now : ℚ) (queryResult : Except String (List CpuTimes))
    (stat : CPUWatcher) : Option (Except String CPUWatcher) :=
  match queryResult with
  | Except.error e => some (Except.error e)
  | Except.ok times =>
      let values := onceValues stat.utilTypes times
      match add now now values stat.utilAvg with
      | none => none
      | some tsa' => some (Except.ok { stat with utilAvg := tsa' })

/-- Go: `load.AvgStat` — the three OS load averages. -/
structure AvgStat where
  load1 : ℚ
  load5 : ℚ
  load15 : ℚ

/-- Substitute every `%d` in a character list by the given rendering. -/
def substPercentD (repl : List Char) : List Char → List Char
  | [] => []
  | '%' :: 'd' :: rest => repl ++ substPercentD repl rest
  | c :: rest => c :: substPercentD repl rest

/-- `fmt.Sprintf(k, d)` for the metric keys at hand: each key holds exactly
one `%d` verb, which receives the duration. -/
def sprintfD (k : String) (d : ℤ) : String :=
  ⟨substPercentD (toString d).data k.data⟩

/-- Go: `type MeasurementsMap map[string]interface{}` restricted to the
values `Results` stores: a float (`some`) or `nil` (`none`). -/
abbrev MeasurementsMap := List (String × Option ℚ)

/-- Inner loop of `Results` over one duration's `ValuesMap`: the `-1`
sentinel becomes an explicit `nil` (`none`), every other value is stored
as is, under key `"util." ++ fmt.Sprintf(k, d)`. -/
def resKeyLoop (d : ℤ) : List (String × ℚ) → MeasurementsMap → MeasurementsMap
  | [], acc => acc
  | kv :: rest, acc =>
      resKeyLoop d rest
        (upsertG acc ("util." ++ sprintfD kv.1 d)
          (if kv.2 = -1 then none else some kv.2))

/-- Outer loop of `Results` over `util` (`for d, m := range util`). -/
def resUtilLoop : List (ℤ × ValuesMap) → MeasurementsMap → MeasurementsMap
  | [], acc => acc
  | dm :: rest, acc => resUtilLoop rest (resKeyLoop dm.1 dm.2 acc)

/-- The `results` map of `Results` right after the utilisation part: built
from the map `Percentage` returned (`nil`, ranged over zero times, on
error). -/
def utilResults (percOut : Except String (List (ℤ × ValuesMap))) :
    MeasurementsMap :=
  match percOut with
  | Except.error _ => []
  | Except.ok m => resUtilLoop m []

/-- The `errs` list right after the `Percentage` call in `Results`. -/
def percErrs (percOut : Except String (List (ℤ × ValuesMap))) : List String :=
  match percOut with
  | Except.error e => [e]
  | Except.ok _ => []

/-- Go: `func (cs *CPUWatcher) Results() (MeasurementsMap, error)`.
`loadQuery` is the outcome of `load.Avg()` (consulted only when a load
average is enabled).  Outer `none` models a panic propagating out of
`Percentage`.  The second component is the combined error
(`"CPU: " ++ join "; "`), `none` when no sub-error occurred. -/
def results (cs : CPUWatcher) (loadQuery : Except String AvgStat) :
    Option (MeasurementsMap × Option String) :=
  match percentage cs.utilAvg with
  | none => none
  | some percOut =>
      let res0 := utilResults percOut
      let loadWanted := cs.loadAvg1 || cs.loadAvg5 || cs.loadAvg15
      let step2 : MeasurementsMap × List String :=
        if loadWanted then
          match loadQuery with
          | Except.error e => (res0, percErrs percOut ++ [e])
          | Except.ok la =>
              let r1 := if cs.loadAvg1 then
                  upsertG res0 "load.avg.1" (some la.load1) else res0
              let r5 := if cs.loadAvg5 then
                  upsertG r1 "load.avg.5" (some la.load5) else r1
              let r15 := if cs.loadAvg15 then
                  upsertG r5 "load.avg.15" (some la.load15) else r5
              (r15, percErrs percOut)
        else (res0, percErrs percOut)
      if step2.2 = [] then some (step2.1, none)
      else some (step2.1, some ("CPU: " ++ String.intercalate "; " step2.2))

/-- One iteration of `CPUWatcher.Run`: call `Once`; an error is logged,
not propagated, and the state is left as `Once` left it (on the error
path `Once` does not touch the series). -/
def runStep (now : ℚ) (queryResult : Except String (List CpuTimes))
    (stat : CPUWatcher) : Option CPUWatcher :=
  match once now queryResult stat with
  | none => none
  | some (Except.error _) => some stat
  | some (Except.ok stat') => some stat'

/-- A whole sequence of `Add` calls (each with `t = now`, as `Once` calls
it), starting from a given series. -/
def runAdds (durations : List ℤ) :
    List (ℚ × ValuesMap) → List TimeValue → Option (List TimeValue)
  | [], series => some series
  | c :: cs, series =>
      match addPrune c.1 durations series with
      | none => none
      | some pruned => runAdds durations cs (pruned ++ [⟨c.1, c.2⟩])

/-- Go `strconv.Atoi`: optional sign followed by at least one digit. -/
def goAtoi (s : String) : Option ℤ :=
  let digits (l : List Char) : Option ℕ :=
    if l = [] ∨ ¬ l.all Char.isDigit then none
    else some (l.foldl (fun acc c => 10 * acc + (c.toNat - 48)) 0)
  match s.toList with
  | '-' :: rest => (digits rest).map (fun n => -(n : ℤ))
  | '+' :: rest => (digits rest).map (fun n => (n : ℤ))
  | l => (digits l).map (fun n => (n : ℤ))

/-- The `durations` slice built by `Cagent.CPUWatcher` from the
`cpu_utilisation_gathering_mode` config entries: every entry of the form
`avg<n>` with a parsable `<n>` contributes `n`; everything else is logged
and skipped. -/
def cpuWatcherDurations (gather : List String) : List ℤ :=
  gather.foldl
    (fun acc d =>
      if List.isPrefixOf "avg".data d.data then
        match goAtoi ⟨d.data.drop 3⟩ with
        | some v => acc ++ [v]
        | none => acc
      else acc)
    []

/-- Half-up rounding to 4 decimal places, as the spec words it:
`⌊q·10⁴ + 1/2⌋ / 10⁴` (ties and everything else rounded toward +∞).
Spec-level definition, to be compared with the code's `percEntryVal`. -/
def roundHalfUp4Spec (q : ℚ) : ℚ := ((⌊q * 10000 + 1/2⌋ : ℤ) : ℚ) / 10000

/-- Twelve snapshots, 5 s apart except a 10 s final gap so that the last
snapshot is exactly 60 seconds after the first; the metric `"u"` rises
from 0 to 30 (values of the snapshots in between are irrelevant to
`Percentage` and left empty). -/
def c5GoodSeries : List TimeValue :=
  [⟨0, [("u", 0)]⟩, ⟨5, []⟩, ⟨10, []⟩, ⟨15, []⟩, ⟨20, []⟩, ⟨25, []⟩,
   ⟨30, []⟩, ⟨35, []⟩, ⟨40, []⟩, ⟨45, []⟩, ⟨50, []⟩, ⟨60, [("u", 30)]⟩]

/-- Like `c5GoodSeries` but the metric `"u"` DECREASES from 60 to 0, a
rate of exactly −1 per second. -/
def c5BadSeries : List TimeValue :=
  [⟨0, [("u", 60)]⟩, ⟨5, []⟩, ⟨10, []⟩, ⟨15, []⟩, ⟨20, []⟩, ⟨25, []⟩,
   ⟨30, []⟩, ⟨35, []⟩, ⟨40, []⟩, ⟨45, []⟩, ⟨50, []⟩, ⟨60, [("u", 0)]⟩]

/-! ## Lock-trace embedding

The watcher's single mutex `UtilAvg.mu` and the accesses to the shared
`TimeSeries` slice are embedded as the sequence of atomic actions each Go
function performs, read off its source line by line.  `storeRead` /
`storeWrite` are accesses to `tsa.TimeSeries`; `osQuery` is a call into
the OS (`cpu.TimesWithContext`, `load.Avg`). -/

inductive LockAction where
  | lock
  | unlock
  | storeRead
  | storeWrite
  | osQuery
  deriving DecidableEq

/-- Action trace of `CPUWatcher.Once`: `mu.Lock()`; the OS query; on error
`return err` (no unlock!); otherwise build the values map, `Add` (which
reads the series while pruning and writes the appended slice) and
`mu.Unlock()`. -/
def onceTrace (queryFails : Bool) : List LockAction :=
  if queryFails then [LockAction.lock, LockAction.osQuery]
  else [LockAction.lock, LockAction.osQuery, LockAction.storeRead,
        LockAction.storeWrite, LockAction.unlock]

/-- Action trace of `TimeSeriesAverage.Percentage`: `mu.Lock()` with
`defer mu.Unlock()`; the emptiness check and the per-duration reads of
`TimeSeries` (last and reference snapshot) all happen inside the critical
section. -/
def percentageTrace : List LockAction :=
  [LockAction.lock, LockAction.storeRead, LockAction.storeRead,
   LockAction.unlock]

/-- Action trace of `TimeSeriesAverage.Average`: its loop over
`tsa.TimeSeries` performs no `mu.Lock()` at all. -/
def averageTrace : List LockAction :=
  [LockAction.storeRead]

/-- Action trace of `CPUWatcher.Results`: `Percentage()` (its own critical
section), then `load.Avg()` outside any lock. -/
def resultsTrace : List LockAction :=
  percentageTrace ++ [LockAction.osQuery]

/-- `guardedFrom n tr`: scanning `tr` with current lock depth `n`, every
store access happens while the lock is held. -/
def guardedFrom : ℤ → List LockAction → Bool
  | _, [] => true
  | n, LockAction.lock :: rest => guardedFrom (n + 1) rest
  | n, LockAction.unlock :: rest => guardedFrom (n - 1) rest
  | n, LockAction.storeRead :: rest => decide (0 < n) && guardedFrom n rest
  | n, LockAction.storeWrite :: rest => decide (0 < n) && guardedFrom n rest
  | n, LockAction.osQuery :: rest => guardedFrom n rest

/-- Every access to the shared store in the trace happens under the mutex. -/
def guarded (tr : List LockAction) : Bool := guardedFrom 0 tr

/-- Net number of lock acquisitions still held when the trace ends. -/
def heldAfter (tr : List LockAction) : ℤ :=
  tr.foldl
    (fun n a =>
      match a with
      | LockAction.lock => n + 1
      | LockAction.unlock => n - 1
      | _ => n)
    0

/-- Is the action a store access? -/
def isStore (a : LockAction) : Bool :=
  a = LockAction.storeRead || a = LockAction.storeWrite

/-- No `unlock` occurs between the first and the last store access of the
trace: the whole window computation sits in one critical section, so a
concurrent `Append` cannot slip between the two snapshot reads. -/
def storeAccessesInOneCriticalSection (tr : List LockAction) : Bool :=
  ((tr.dropWhile (fun a => ! isStore a)).reverse.dropWhile
      (fun a => ! isStore a)).all (fun a => a ≠ LockAction.unlock)

/-! ## Map and loop lemmas -/

theorem lookupG_upsertG_self {α β : Type} [DecidableEq α]
    (m : List (α × β)) (k : α) (v : β) :
    lookupG (upsertG m k v) k = some v := by
  induction m with
  | nil => simp [upsertG, lookupG]
  | cons kv rest ih =>
      obtain ⟨k', v'⟩ := kv
      by_cases h : k' = k
      · simp [upsertG, h, lookupG]
      · simp [upsertG, h, lookupG, ih]

theorem lookupG_upsertG_ne {α β : Type} [DecidableEq α]
    (m : List (α × β)) (k k' : α) (v : β) (h : k' ≠ k) :
    lookupG (upsertG m k v) k' = lookupG m k' := by
  induction m with
  | nil => simp [upsertG, lookupG, if_neg (Ne.symm h)]
  | cons kv rest ih =>
      obtain ⟨k₀, v₀⟩ := kv
      by_cases h0 : k₀ = k
      · subst h0
        simp [upsertG, lookupG, if_neg (Ne.symm h)]
      · by_cases h1 : k₀ = k'
        · subst h1
          simp [upsertG, h0, lookupG]
        · simp [upsertG, h0, lookupG, h1, ih]

theorem lookupG_vsetLoop_not_mem (f : String → ℚ → ℚ)
    (l : List (String × ℚ)) (acc : ValuesMap) (k : String)
    (h : k ∉ l.map Prod.fst) :
    lookupG (vsetLoop f l acc) k = lookupG acc k := by
  induction l generalizing acc with
  | nil => rfl
  | cons kv rest ih =>
      simp only [List.map_cons, List.mem_cons] at h
      push_neg at h
      rw [vsetLoop, ih _ h.2, vset, lookupG_upsertG_ne _ _ _ _ h.1]

theorem lookupG_vsetLoop_mem (f : String → ℚ → ℚ)
    (l : List (String × ℚ)) (acc : ValuesMap) (k : String) (v : ℚ)
    (hmem : (k, v) ∈ l) (hnd : (l.map Prod.fst).Nodup) :
    lookupG (vsetLoop f l acc) k = some (f k v) := by
  induction l generalizing acc with
  | nil => simp at hmem
  | cons kv rest ih =>
      simp only [List.map_cons, List.nodup_cons] at hnd
      rcases List.mem_cons.mp hmem with heq | htail
      · subst heq
        rw [vsetLoop, lookupG_vsetLoop_not_mem _ _ _ _ hnd.1, vset,
          lookupG_upsertG_self]
      · rw [vsetLoop]
        exact ih _ htail hnd.2

theorem percLoop_isSome (series : List TimeValue) (last : TimeValue)
    (ds : List ℤ) (m : List (ℤ × ValuesMap))
    (hall : ∀ d ∈ ds, percForDuration series last d ≠ none) :
    ∃ m', percLoop series last ds m = some m' := by
  induction ds generalizing m with
  | nil => exact ⟨m, rfl⟩
  | cons d ds ih =>
      have hd := hall d (List.mem_cons_self d ds)
      rcases hv : percForDuration series last d with _ | vm
      · exact absurd hv hd
      · rw [percLoop, hv]
        exact ih _ (fun d' hd' => hall d' (List.mem_cons_of_mem d hd'))

theorem percLoop_lookup_not_mem (series : List TimeValue) (last : TimeValue)
    (ds : List ℤ) (m m' : List (ℤ × ValuesMap)) (d : ℤ)
    (hrun : percLoop series last ds m = some m') (hd : d ∉ ds) :
    lookupG m' d = lookupG m d := by
  induction ds generalizing m with
  | nil =>
      rw [percLoop] at hrun
      cases hrun
      rfl
  | cons d0 ds ih =>
      simp only [List.mem_cons] at hd
      push_neg at hd
      rw [percLoop] at hrun
      rcases hv : percForDuration series last d0 with _ | vm
      · rw [hv] at hrun; cases hrun
      · rw [hv] at hrun
        rw [ih _ hrun hd.2, lookupG_upsertG_ne _ _ _ _ hd.1]

theorem percLoop_lookup_mem (series : List TimeValue) (last : TimeValue)
    (ds : List ℤ) (m m' : List (ℤ × ValuesMap)) (d : ℤ)
    (hrun : percLoop series last ds m = some m') (hd : d ∈ ds) :
    lookupG m' d = percForDuration series last d := by
  induction ds generalizing m with
  | nil => simp at hd
  | cons d0 ds ih =>
      rw [percLoop] at hrun
      rcases hv : percForDuration series last d0 with _ | vm
      · rw [hv] at hrun; cases hrun
      · rw [hv] at hrun
        by_cases hmem : d ∈ ds
        · exact ih _ hrun hmem
        · have : d = d0 := by
            rcases List.mem_cons.mp hd with h | h
            · exact h
            · exact absurd h hmem
          subst this
          rw [percLoop_lookup_not_mem _ _ _ _ _ _ hrun hmem,
            lookupG_upsertG_self, hv]

theorem percForDuration_isSome (series : List TimeValue) (last : TimeValue)
    (d : ℤ) (hd : 1 ≤ d) :
    percForDuration series last d ≠ none := by
  rw [percForDuration]
  by_cases hneg : (series.length : ℤ) - 12 * d < 0
  · simp [hneg]
  · push_neg at hneg
    have hlt : ((series.length : ℤ) - 12 * d).toNat < series.length := by
      have h12 : (12 : ℤ) ≤ 12 * d := by linarith
      omega
    rcases hget : series.get? ((series.length : ℤ) - 12 * d).toNat with _ | ref
    · rw [List.get?_eq_none] at hget
      omega
    · simp only [hget]
      split <;> simp

theorem percentage_eq_ok (tsa : TimeSeriesAverage) (last : TimeValue)
    (hlast : tsa.timeSeries.getLast? = some last)
    (hds : ∀ d ∈ tsa.durationInMinutes, 1 ≤ d) :
    ∃ m, percentage tsa = some (Except.ok m) ∧
      percLoop tsa.timeSeries last tsa.durationInMinutes [] = some m := by
  obtain ⟨m, hm⟩ := percLoop_isSome tsa.timeSeries last tsa.durationInMinutes []
    (fun d hd => percForDuration_isSome _ _ d (hds d hd))
  refine ⟨m, ?_, hm⟩
  simp only [percentage, hlast, hm]

theorem itrunc_eq_floor (q : ℚ) (h : 0 ≤ q) : itrunc q = ⌊q⌋ := by
  rw [itrunc, Rat.floor_def]
  exact Int.tdiv_eq_ediv (Rat.num_nonneg.mpr h) (Int.ofNat_nonneg _)

theorem percEntryVal_eq_roundHalfUp4 (lv rv dt : ℚ)
    (h : 0 ≤ (lv - rv) / dt) :
    percEntryVal lv rv dt = roundHalfUp4Spec ((lv - rv) / dt) := by
  rw [percEntryVal, roundHalfUp4Spec, itrunc_eq_floor]
  positivity

/-! ## Pruning lemmas -/

theorem addPrune_sound (now : ℚ) (durations : List ℤ) (maxd : ℤ)
    (hlast : durations.getLast? = some maxd) (s : List TimeValue)
    (hs : s.Pairwise (fun a b => a.time ≤ b.time)) :
    ∃ pruned, addPrune now durations s = some pruned ∧
      pruned.Pairwise (fun a b => a.time ≤ b.time) ∧
      (∀ tv ∈ pruned, tv ∈ s) ∧
      (∀ tv ∈ pruned, now - tv.time ≤ minutes maxd) := by
  induction s with
  | nil => exact ⟨[], rfl, List.Pairwise.nil, by simp, by simp⟩
  | cons tv rest ih =>
      rw [List.pairwise_cons] at hs
      by_cases h : now - tv.time > minutes maxd
      · obtain ⟨pruned, hrun, hsort, hsub, hwin⟩ := ih hs.2
        refine ⟨pruned, ?_, hsort,
          fun x hx => List.mem_cons_of_mem _ (hsub x hx), hwin⟩
        simp only [addPrune, hlast]
        rw [if_pos h, hrun]
      · refine ⟨tv :: rest, ?_, List.pairwise_cons.mpr hs, fun x hx => hx, ?_⟩
        · simp only [addPrune, hlast]
          rw [if_neg h]
        · intro x hx
          rcases List.mem_cons.mp hx with rfl | hx'
          · exact le_of_not_lt h
          · have := hs.1 x hx'
            push_neg at h
            linarith

theorem runAdds_invariant (durations : List ℤ) (maxd : ℤ)
    (hlast : durations.getLast? = some maxd) (hmax : 0 ≤ maxd)
    (calls : List (ℚ × ValuesMap))
    (hcalls : calls.Pairwise (fun a b => a.1 < b.1))
    (series : List TimeValue)
    (hsorted : series.Pairwise (fun a b => a.time ≤ b.time))
    (hbound : ∀ tv ∈ series, ∀ c ∈ calls, tv.time ≤ c.1) :
    ∃ s', runAdds durations calls series = some s' ∧
      s'.Pairwise (fun a b => a.time ≤ b.time) ∧
      (calls = [] → s' = series) ∧
      (∀ cl, calls.getLast? = some cl →
        ∀ tv ∈ s', tv.time ≤ cl.1 ∧ cl.1 - tv.time ≤ minutes maxd) := by
  induction calls generalizing series with
  | nil =>
      exact ⟨series, rfl, hsorted, fun _ => rfl, fun cl hcl => by simp at hcl⟩
  | cons c cs ih =>
      rw [List.pairwise_cons] at hcalls
      obtain ⟨pruned, hprune, hpsort, hpsub, hpwin⟩ :=
        addPrune_sound c.1 durations maxd hlast series hsorted
      have hple : ∀ tv ∈ pruned, tv.time ≤ c.1 :=
        fun tv htv => hbound tv (hpsub tv htv) c (List.mem_cons_self c cs)
      have hsorted2 :
          (pruned ++ [(⟨c.1, c.2⟩ : TimeValue)]).Pairwise
            (fun a b => a.time ≤ b.time) := by
        rw [List.pairwise_append]
        refine ⟨hpsort, by simp, fun a ha b hb => ?_⟩
        rcases List.mem_singleton.mp hb with rfl
        exact hple a ha
      have hbound2 : ∀ tv ∈ pruned ++ [(⟨c.1, c.2⟩ : TimeValue)],
          ∀ c' ∈ cs, tv.time ≤ c'.1 := by
        intro tv htv c' hc'
        rcases List.mem_append.mp htv with hin | hnew
        · exact le_of_lt (lt_of_le_of_lt (hple tv hin) (hcalls.1 c' hc'))
        · rcases List.mem_singleton.mp hnew with rfl
          exact le_of_lt (hcalls.1 c' hc')
      obtain ⟨s', hrun, hsort', hnil', hwin'⟩ :=
        ih hcalls.2 (pruned ++ [⟨c.1, c.2⟩]) hsorted2 hbound2
      refine ⟨s', ?_, hsort', fun hc => absurd hc (List.cons_ne_nil c cs), ?_⟩
      · simp only [runAdds, hprune]
        exact hrun
      · intro cl hcl
        rcases hcs : cs with _ | ⟨c2, cs'⟩
        · subst hcs
          simp only [List.getLast?_singleton] at hcl
          obtain rfl := Option.some.inj hcl
          have hs' : s' = pruned ++ [(⟨c.1, c.2⟩ : TimeValue)] := hnil' rfl
          intro tv htv
          rw [hs'] at htv
          rcases List.mem_append.mp htv with hin | hnew
          · refine ⟨hple tv hin, hpwin tv hin⟩
          · rcases List.mem_singleton.mp hnew with rfl
            refine ⟨le_refl _, ?_⟩
            simp only [sub_self, minutes]
            have hq : (0 : ℚ) ≤ (maxd : ℚ) := by exact_mod_cast hmax
            linarith
        · subst hcs
          rw [List.getLast?_cons_cons] at hcl
          exact hwin' cl hcl

/-- On a linear order, every member of a sorted list is at most its last
element. -/
theorem sorted_le_getLast (l : List ℤ) (hs : l.Pairwise (· ≤ ·)) (x : ℤ)
    (hx : x ∈ l) (m : ℤ) (hm : l.getLast? = some m) : x ≤ m := by
  induction l with
  | nil => simp at hx
  | cons a rest ih =>
      rw [List.pairwise_cons] at hs
      rcases hrest : rest with _ | ⟨b, t⟩
      · subst hrest
        simp only [List.getLast?_singleton] at hm
        cases hm
        rcases List.mem_singleton.mp hx with rfl
        exact le_refl _
      · subst hrest
        rw [List.getLast?_cons_cons] at hm
        have hmem : m ∈ b :: t := by
          obtain ⟨hne, heq⟩ := List.mem_getLast?_eq_getLast (by rw [hm]; rfl)
          rw [heq]
          exact List.getLast_mem hne
        rcases List.mem_cons.mp hx with rfl | hx'
        · exact hs.1 m hmem
        · exact ih hs.2 hx' hm

theorem sortInts_getLast_isMax (l : List ℤ) (hne : l ≠ []) :
    ∃ maxd, (sortInts l).getLast? = some maxd ∧ ∀ x ∈ l, x ≤ maxd := by
  have hperm := List.perm_insertionSort (α := ℤ) (· ≤ ·) l
  have hne' : sortInts l ≠ [] := by
    intro hcon
    rw [sortInts] at hcon
    rw [hcon] at hperm
    exact hne (List.Perm.nil_eq hperm).symm
  refine ⟨(sortInts l).getLast hne',
    List.getLast?_eq_getLast_of_ne_nil hne', fun x hx => ?_⟩
  have hsorted : (sortInts l).Pairwise (· ≤ ·) :=
    List.sorted_insertionSort (· ≤ ·) l
  have hx' : x ∈ sortInts l := hperm.mem_iff.mpr hx
  exact sorted_le_getLast _ hsorted x hx' _
    (List.getLast?_eq_getLast_of_ne_nil hne')

/-- Shared shape of the computed (non-sentinel) `Percentage` result: for a
non-empty store and a window with non-negative reference index, each key
`k` of the last snapshot maps to
`percEntryVal lastVal (vget ref.values k) (last.time - ref.time)`. -/
theorem percentage_lookup_computed (tsa : TimeSeriesAverage)
    (last ref : TimeValue) (d : ℤ) (k : String) (v : ℚ)
    (hlast : tsa.timeSeries.getLast? = some last)
    (hds : ∀ d' ∈ tsa.durationInMinutes, 1 ≤ d')
    (hd : d ∈ tsa.durationInMinutes)
    (hpos : 0 ≤ (tsa.timeSeries.length : ℤ) - 12 * d)
    (href : tsa.timeSeries.get? ((tsa.timeSeries.length : ℤ) - 12 * d).toNat
      = some ref)
    (hnd : (last.values.map Prod.fst).Nodup)
    (hkv : (k, v) ∈ last.values) :
    ∃ m vm, percentage tsa = some (Except.ok m) ∧ lookupG m d = some vm ∧
      lookupG vm k
        = some (percEntryVal v (vget ref.values k) (last.time - ref.time)) := by
  obtain ⟨m, hm, hloop⟩ := percentage_eq_ok tsa last hlast hds
  refine ⟨m,
    vsetLoop
      (fun k2 lastVal =>
        percEntryVal lastVal (vget ref.values k2) (last.time - ref.time))
      last.values [],
    hm, ?_, ?_⟩
  · rw [percLoop_lookup_mem _ _ _ _ _ _ hloop hd, percForDuration,
      if_neg (not_lt.mpr hpos), href]
  · exact lookupG_vsetLoop_mem _ _ _ _ v hkv hnd

/-! ## Claim theorems -/

/-- C1: when the OS CPU-times query fails, `Once` returns the error without
appending anything (the `Run` loop keeps the store unchanged and retries
next tick), BUT — contrary to the claim — `Once`'s error path returns with
`UtilAvg.mu` still locked (`heldAfter = 1`, whereas the success path is
balanced), so the next `Once` or `Percentage` call blocks forever on
`mu.Lock()`: an individual sample failure IS fatal to the watcher. -/
theorem once_failure_skips_sample_but_leaks_mutex :
    (∀ (now : ℚ) (e : String) (stat : CPUWatcher),
        once now (Except.error e) stat = some (Except.error e) ∧
        runStep now (Except.error e) stat = some stat) ∧
    heldAfter (onceTrace true) = 1 ∧
    heldAfter (onceTrace false) = 0 :=
  ⟨fun _ _ _ => ⟨rfl, rfl⟩, by decide, by decide⟩

/-- C2 failing input: two cores with `irq` times 4 and 2 and `UtilTypes =
["irq"]`.  The snapshot's `"irq.%d.total"` is the per-core SUM 6, not the
mean 3 (the total-averaging loop lists `"interrupt.%d.total"` instead of
`"irq.%d.total"`), and the snapshot contains a `"user.%d.total"` key (value
0) although `user` is not an enabled type — the averaging loop's map write
creates every key of its fixed list.  For a type that IS in the fixed list
(`system`) the total is the mean, as the claim states. -/
theorem once_snapshot_keys_and_total_divergence :
    vget (onceValues ["irq"] [{ irq := 4 }, { irq := 2 }]) "irq.%d.total"
        = 6 ∧
    ((4 : ℚ) + 2) / 2 = 3 ∧ (6 : ℚ) ≠ 3 ∧
    vmem (onceValues ["irq"] [{ irq := 4 }, { irq := 2 }]) "user.%d.total"
        = true ∧
    vget (onceValues ["irq"] [{ irq := 4 }, { irq := 2 }]) "user.%d.total"
        = 0 ∧
    vget (onceValues ["system"] [{ system := 4 }, { system := 2 }])
        "system.%d.total" = 3 :=
  ⟨of_decide_eq_true (by with_unfolding_all rfl), by norm_num, by norm_num,
   of_decide_eq_true (by with_unfolding_all rfl),
   of_decide_eq_true (by with_unfolding_all rfl),
   of_decide_eq_true (by with_unfolding_all rfl)⟩

/-- C6: `Percentage` returns the explicit "CPU metrics are not collected
yet" error exactly when the store holds zero snapshots, and the error
carries no data (the Go code returns a nil map with it). -/
theorem percentage_error_iff_store_empty (tsa : TimeSeriesAverage) :
    ((∃ e, percentage tsa = some (Except.error e)) ↔ tsa.timeSeries = []) ∧
    (tsa.timeSeries = [] →
      percentage tsa
        = some (Except.error "CPU metrics are not collected yet")) := by
  constructor
  · constructor
    · rintro ⟨e, he⟩
      rcases hlast : tsa.timeSeries.getLast? with _ | last
      · exact List.getLast?_eq_none_iff.mp hlast
      · rw [percentage] at he
        simp only [hlast] at he
        rcases hloop : percLoop tsa.timeSeries last tsa.durationInMinutes []
          with _ | m <;> simp [hloop] at he
    · intro h
      refine ⟨"CPU metrics are not collected yet", ?_⟩
      rw [percentage, h]
      rfl
  · intro h
    rw [percentage, h]
    rfl

/-- C7: a configuration with no enabled utilisation windows
(`cpu_utilisation_gathering_mode` empty, hence `_DurationInMinutes = []`)
is NOT operable, contrary to the claim: the first `SampleOnce` succeeds
(the pruning loop's `len > 0` guard short-circuits), but the second one
indexes `_DurationInMinutes[len-1] = _DurationInMinutes[-1]` and panics. -/
theorem zero_windows_config_panics_on_second_sample :
    cpuWatcherDurations [] = [] ∧
    (∃ w1,
      once 0 (Except.ok [{}])
          { utilAvg := { timeSeries := [],
                         durationInMinutes := sortInts (cpuWatcherDurations []) },
            utilTypes := [] }
        = some (Except.ok w1) ∧
      once 5 (Except.ok [{}]) w1 = none) :=
  ⟨rfl, ⟨_, rfl, rfl⟩⟩

/-- C3: for a non-empty store, every window `d` whose reference index
`len - 12·d` is negative yields the sentinel `-1` for every key of the
last snapshot — no error is returned.  And `Results` turns the sentinel
into an explicit null (`none`) entry with no error, shown in full
generality for a store holding one snapshot with one key (where the
formatted result keys cannot collide). -/
theorem percentage_unavailable_sentinel_and_null :
    (∀ (tsa : TimeSeriesAverage) (last : TimeValue) (d : ℤ),
      tsa.timeSeries.getLast? = some last →
      (∀ d' ∈ tsa.durationInMinutes, 1 ≤ d') →
      d ∈ tsa.durationInMinutes →
      (tsa.timeSeries.length : ℤ) - 12 * d < 0 →
      (last.values.map Prod.fst).Nodup →
      ∃ m vm, percentage tsa = some (Except.ok m) ∧
        lookupG m d = some vm ∧
        ∀ kv ∈ last.values, lookupG vm kv.1 = some (-1)) ∧
    (∀ (k : String) (v t : ℚ) (d : ℤ) (uts : List String)
        (lq : Except String AvgStat), 1 ≤ d →
      results
          { utilAvg := { timeSeries := [⟨t, [(k, v)]⟩],
                         durationInMinutes := [d] },
            utilTypes := uts } lq
        = some ([("util." ++ sprintfD k d, none)], none)) := by
  constructor
  · intro tsa last d hlast hds hd hneg hnd
    obtain ⟨m, hm, hloop⟩ := percentage_eq_ok tsa last hlast hds
    refine ⟨m, vsetLoop (fun _ _ => -1) last.values [], hm, ?_, ?_⟩
    · rw [percLoop_lookup_mem _ _ _ _ _ _ hloop hd, percForDuration,
        if_pos hneg]
    · intro kv hkv
      rw [lookupG_vsetLoop_mem _ _ _ _ kv.2 hkv hnd]
  · intro k v t d uts lq hd
    have hneg : ((([(⟨t, [(k, v)]⟩ : TimeValue)] : List TimeValue).length : ℤ)
        - 12 * d) < 0 := by
      simp only [List.length_singleton]
      omega
    have hperc :
        percentage { timeSeries := [⟨t, [(k, v)]⟩], durationInMinutes := [d] }
          = some (Except.ok [(d, [(k, -1)])]) := by
      simp only [percentage, List.getLast?_singleton, percLoop,
        percForDuration, if_pos hneg, vsetLoop, vset, upsertG]
    simp only [results, hperc, utilResults, percErrs, resUtilLoop, resKeyLoop,
      upsertG, Bool.false_or, Bool.or_false, if_pos rfl]
    rfl

/-- C9 counterexample: the claim says every reading access, `Average`
included, is serialized by the watcher's mutex; but `Average`'s trace reads
`tsa.TimeSeries` without ever acquiring the lock. -/
theorem not_all_store_accesses_locked :
    ¬ (guarded averageTrace = true ∧ guarded percentageTrace = true ∧
       guarded (onceTrace false) = true ∧ guarded resultsTrace = true) := by
  decide

/-- C9 (amended): `Append` (inside `Once`) and `Percentage` (hence
`Results`) access the store only while holding the single watcher mutex,
and each `Percentage`/`Results` window computation performs all its store
reads inside one critical section (no unlock between them), so it is atomic
with respect to `Append`; `Average`, however, reads the store without
taking the lock. -/
theorem locking_discipline_except_average :
    guarded (onceTrace false) = true ∧ guarded (onceTrace true) = true ∧
    guarded percentageTrace = true ∧ guarded resultsTrace = true ∧
    guarded averageTrace = false ∧
    storeAccessesInOneCriticalSection percentageTrace = true ∧
    storeAccessesInOneCriticalSection resultsTrace = true := by
  decide

theorem vget_eq_zero_of_not_mem (m : ValuesMap) (k : String)
    (h : vmem m k = false) : vget m k = 0 := by
  rw [vmem] at h
  rcases hl : lookupG m k with _ | v
  · rw [vget, hl]
  · rw [hl] at h
    simp at h

/-- C10: if a key is present in the latest snapshot but absent from the
reference snapshot, the Go map read `TimeSeries[keyInt].Values[key]`
yields the zero value, so the rate is computed with reference value `0`
(`percEntryVal v 0 Δt`, i.e. `v/Δt` rounded) — the key is neither omitted
nor marked unavailable. -/
theorem missing_reference_key_rate_uses_zero
    (tsa : TimeSeriesAverage) (last ref : TimeValue) (d : ℤ) (k : String)
    (v : ℚ)
    (hlast : tsa.timeSeries.getLast? = some last)
    (hds : ∀ d' ∈ tsa.durationInMinutes, 1 ≤ d')
    (hd : d ∈ tsa.durationInMinutes)
    (hpos : 0 ≤ (tsa.timeSeries.length : ℤ) - 12 * d)
    (href : tsa.timeSeries.get? ((tsa.timeSeries.length : ℤ) - 12 * d).toNat
      = some ref)
    (hnd : (last.values.map Prod.fst).Nodup)
    (hkv : (k, v) ∈ last.values)
    (habs : vmem ref.values k = false) :
    vget ref.values k = 0 ∧
    ∃ m vm, percentage tsa = some (Except.ok m) ∧ lookupG m d = some vm ∧
      lookupG vm k = some (percEntryVal v 0 (last.time - ref.time)) := by
  have hz := vget_eq_zero_of_not_mem ref.values k habs
  refine ⟨hz, ?_⟩
  have := percentage_lookup_computed tsa last ref d k v hlast hds hd hpos
    href hnd hkv
  rwa [hz] at this

/-- C5 (amended): for a non-negative computed rate — always the case for
the monotone cumulative counters this store holds — the value returned for
a key is exactly `(latest - reference) / Δt` rounded to 4 decimal places
half-up; and in the spec's concrete scenario (two snapshots 60 seconds
apart, the metric rising by 30.0, a window covering both) the result is
exactly `0.5000`.  (For a negative rate the code truncates toward zero
after adding `0.5`, which is not half-up rounding — see the
counterexample.) -/
theorem percentage_rate_is_half_up_rounded_rate :
    (∀ (tsa : TimeSeriesAverage) (last ref : TimeValue) (d : ℤ) (k : String)
        (v : ℚ),
      tsa.timeSeries.getLast? = some last →
      (∀ d' ∈ tsa.durationInMinutes, 1 ≤ d') →
      d ∈ tsa.durationInMinutes →
      0 ≤ (tsa.timeSeries.length : ℤ) - 12 * d →
      tsa.timeSeries.get? ((tsa.timeSeries.length : ℤ) - 12 * d).toNat
        = some ref →
      (last.values.map Prod.fst).Nodup →
      (k, v) ∈ last.values →
      0 ≤ (v - vget ref.values k) / (last.time - ref.time) →
      ∃ m vm, percentage tsa = some (Except.ok m) ∧ lookupG m d = some vm ∧
        lookupG vm k
          = some (roundHalfUp4Spec
              ((v - vget ref.values k) / (last.time - ref.time)))) ∧
    (∃ m vm,
      percentage { timeSeries := c5GoodSeries, durationInMinutes := [1] }
          = some (Except.ok m) ∧
      lookupG m 1 = some vm ∧ lookupG vm "u" = some (1/2) ∧
      (1/2 : ℚ) = 5000 / 10000) := by
  constructor
  · intro tsa last ref d k v hlast hds hd hpos href hnd hkv hrate
    obtain ⟨m, vm, hm, hvm, hk⟩ := percentage_lookup_computed tsa last ref d
      k v hlast hds hd hpos href hnd hkv
    refine ⟨m, vm, hm, hvm, ?_⟩
    rw [hk, percEntryVal_eq_roundHalfUp4 _ _ _ hrate]
  · obtain ⟨m, vm, hm, hvm, hk⟩ := percentage_lookup_computed
      { timeSeries := c5GoodSeries, durationInMinutes := [1] }
      ⟨60, [("u", 30)]⟩ ⟨0, [("u", 0)]⟩ 1 "u" 30
      rfl (by decide) (by decide) (by decide) rfl (by decide) (by decide)
    refine ⟨m, vm, hm, hvm, ?_, by norm_num⟩
    rw [hk]
    have hv : vget [("u", (0 : ℚ))] "u" = 0 := rfl
    rw [hv]
    have hdt : (60 : ℚ) - 0 = 60 := by norm_num
    rw [hdt]
    have : percEntryVal 30 0 60 = 1/2 :=
      of_decide_eq_true (by with_unfolding_all rfl)
    rw [this]

/-- C5 counterexample: on a store whose metric value DECREASES (60 → 0
over 60 seconds, rate −1), `Percentage` returns −0.9999, while −1 rounded
half-up to 4 decimal places is −1: the claim's "rounded half-up", stated
for every store, fails — the code truncates toward zero after adding 0.5. -/
theorem percentage_rate_not_half_up_on_decrease :
    ∃ m vm c,
      percentage { timeSeries := c5BadSeries, durationInMinutes := [1] }
          = some (Except.ok m) ∧
      lookupG m 1 = some vm ∧ lookupG vm "u" = some c ∧
      c ≠ roundHalfUp4Spec ((0 - 60) / (60 - 0)) := by
  obtain ⟨m, vm, hm, hvm, hk⟩ := percentage_lookup_computed
    { timeSeries := c5BadSeries, durationInMinutes := [1] }
    ⟨60, [("u", 0)]⟩ ⟨0, [("u", 60)]⟩ 1 "u" 0
    rfl (by decide) (by decide) (by decide) rfl (by decide) (by decide)
  have hv : vget [("u", (60 : ℚ))] "u" = 60 := rfl
  rw [hv] at hk
  refine ⟨m, vm, percEntryVal 0 60 (60 - 0), hm, hvm, hk, ?_⟩
  have h1 : percEntryVal 0 60 ((60 : ℚ) - 0) = -9999/10000 := by
    have hdt : (60 : ℚ) - 0 = 60 := by norm_num
    rw [hdt, percEntryVal]
    have h2 : (((0 : ℚ) - 60) / 60) * 10000 + 1/2 = -19999/2 := by norm_num
    rw [h2]
    have h3 : itrunc (-19999/2 : ℚ) = -9999 :=
      of_decide_eq_true (by with_unfolding_all rfl)
    rw [h3]
    norm_num
  have h4 : roundHalfUp4Spec (((0 : ℚ) - 60) / (60 - 0)) = -1 := by
    rw [roundHalfUp4Spec]
    have h5 : (((0 : ℚ) - 60) / (60 - 0)) * 10000 + 1/2 = -19999/2 := by
      norm_num
    rw [h5]
    have h6 : ⌊(-19999/2 : ℚ)⌋ = -10000 := by
      rw [Int.floor_eq_iff]
      constructor <;> norm_num
    rw [h6]
    norm_num
  rw [h1, h4]
  norm_num

/-- C4: starting from an empty store, for every sequence of `Add` calls
with strictly increasing timestamps (each call's `time.Since` clock being
its timestamp, as in `Once`) and a non-empty window configuration set via
`SetDurationsMinutes`, the run succeeds and after the run every remaining
snapshot satisfies `now − timestamp ≤ max(configured windows)` where `now`
is the last call's clock; as the sequence is universally quantified this
holds after each call of any strictly increasing sequence. -/
theorem append_pruning_invariant (rawDs : List ℤ) (hne : rawDs ≠ [])
    (hpos : ∀ d ∈ rawDs, 1 ≤ d) (calls : List (ℚ × ValuesMap))
    (hinc : calls.Pairwise (fun a b => a.1 < b.1)) :
    ∃ maxd s',
      (sortInts rawDs).getLast? = some maxd ∧ (∀ d ∈ rawDs, d ≤ maxd) ∧
      runAdds (sortInts rawDs) calls [] = some s' ∧
      ∀ cl, calls.getLast? = some cl →
        ∀ tv ∈ s', cl.1 - tv.time ≤ minutes maxd := by
  obtain ⟨maxd, hml, hub⟩ := sortInts_getLast_isMax rawDs hne
  have hmax : 0 ≤ maxd := by
    rcases rawDs with _ | ⟨d0, ds⟩
    · exact absurd rfl hne
    · have h1 := hpos d0 (List.mem_cons_self d0 ds)
      have h2 := hub d0 (List.mem_cons_self d0 ds)
      omega
  obtain ⟨s', hrun, _, _, hwin⟩ := runAdds_invariant (sortInts rawDs) maxd
    hml hmax calls hinc [] List.Pairwise.nil (by simp)
  exact ⟨maxd, s', hml, hub, hrun,
    fun cl hcl tv htv => (hwin cl hcl tv htv).2⟩

/-- C8: `Results` aggregates the sub-errors (the empty-store error from
`Percentage`, a failing `load.Avg` query) into one combined
`"CPU: " ++ join "; "` error returned WITH the partial results that could
be computed; when `Percentage` succeeds the `-1` sentinel values never
contribute an error (the error component is `none` whenever the load query
succeeds or is not wanted). -/
theorem results_error_aggregation :
    (∀ (cs : CPUWatcher) (percOut : Except String (List (ℤ × ValuesMap)))
        (e : String),
      percentage cs.utilAvg = some percOut →
      (cs.loadAvg1 || cs.loadAvg5 || cs.loadAvg15) = true →
      results cs (Except.error e)
        = some (utilResults percOut,
            some ("CPU: "
              ++ String.intercalate "; " (percErrs percOut ++ [e])))) ∧
    (∀ (cs : CPUWatcher) (m : List (ℤ × ValuesMap)) (la : AvgStat),
      percentage cs.utilAvg = some (Except.ok m) →
      (results cs (Except.ok la)).map Prod.snd = some none) ∧
    (∀ (cs : CPUWatcher) (m : List (ℤ × ValuesMap))
        (lq : Except String AvgStat),
      percentage cs.utilAvg = some (Except.ok m) →
      (cs.loadAvg1 || cs.loadAvg5 || cs.loadAvg15) = false →
      results cs lq = some (utilResults (Except.ok m), none)) := by
  refine ⟨?_, ?_, ?_⟩
  · intro cs percOut e hp hl
    have hnil : percErrs percOut ++ [e] ≠ [] := by
      rcases percOut <;> simp [percErrs]
    simp only [results, hp, hl, if_true, if_neg hnil]
  · intro cs m la hp
    rcases hw : (cs.loadAvg1 || cs.loadAvg5 || cs.loadAvg15) with _ | _ <;>
      simp only [results, hp, percErrs, hw] <;> rfl
  · intro cs m lq hp hl
    simp only [results, hp, hl, percErrs]
    rfl

/-! ## Witnesses -/

/-- Witness for C3 at a concrete one-snapshot store and window 5. -/
theorem percentage_unavailable_sentinel_and_null_witness :
    (∃ m vm,
      percentage
          { timeSeries := [⟨0, [("x", 5)]⟩], durationInMinutes := [5] }
        = some (Except.ok m) ∧
      lookupG m 5 = some vm ∧
      ∀ kv ∈ ([("x", (5 : ℚ))] : ValuesMap), lookupG vm kv.1 = some (-1)) ∧
    results
        { utilAvg := { timeSeries := [⟨0, [("x", 5)]⟩],
                       durationInMinutes := [5] },
          utilTypes := [] } (Except.ok ⟨1, 2, 3⟩)
      = some ([("util." ++ sprintfD "x" 5, none)], none) :=
  ⟨percentage_unavailable_sentinel_and_null.1 _ ⟨0, [("x", 5)]⟩ 5 rfl
      (by decide) (by decide) (by decide) (by decide),
   percentage_unavailable_sentinel_and_null.2 "x" 5 0 5 []
      (Except.ok ⟨1, 2, 3⟩) (by decide)⟩

/-- Witness for C4: windows `[1]`, two calls at times 0 and 5. -/
theorem append_pruning_invariant_witness :
    ∃ maxd s',
      (sortInts [1]).getLast? = some maxd ∧ (∀ d ∈ [(1 : ℤ)], d ≤ maxd) ∧
      runAdds (sortInts [1]) [((0 : ℚ), ([] : ValuesMap)), (5, [])] []
        = some s' ∧
      ∀ cl, [((0 : ℚ), ([] : ValuesMap)), (5, [])].getLast? = some cl →
        ∀ tv ∈ s', cl.1 - tv.time ≤ minutes maxd :=
  append_pruning_invariant [1] (by decide) (by decide) [(0, []), (5, [])]
    (by
      refine List.pairwise_cons.mpr ⟨?_, List.pairwise_cons.mpr ⟨?_, List.Pairwise.nil⟩⟩
      · intro b hb
        rcases List.mem_singleton.mp hb with rfl
        norm_num
      · intro b hb
        exact absurd hb (List.not_mem_nil b))

/-- Witness for C5 (amended) at the good store with rate 1/2 ≥ 0. -/
theorem percentage_rate_is_half_up_rounded_rate_witness :
    ∃ m vm,
      percentage { timeSeries := c5GoodSeries, durationInMinutes := [1] }
        = some (Except.ok m) ∧
      lookupG m 1 = some vm ∧
      lookupG vm "u"
        = some (roundHalfUp4Spec
            ((30 - vget [("u", (0 : ℚ))] "u") / ((60 : ℚ) - 0))) :=
  percentage_rate_is_half_up_rounded_rate.1 _ ⟨60, [("u", 30)]⟩
    ⟨0, [("u", 0)]⟩ 1 "u" 30 rfl (by decide) (by decide) (by decide) rfl
    (by decide) (by decide) (by norm_num [vget, lookupG])

/-- Witness for C6 at the empty store. -/
theorem percentage_error_iff_store_empty_witness :
    percentage { timeSeries := [], durationInMinutes := [5] }
      = some (Except.error "CPU metrics are not collected yet") :=
  (percentage_error_iff_store_empty
    { timeSeries := [], durationInMinutes := [5] }).2 rfl

/-- Witness for C8: empty store plus failing load query with `avg1`
enabled — both errors aggregated, partial (empty) results returned. -/
theorem results_error_aggregation_witness :
    results
        { loadAvg1 := true,
          utilAvg := { timeSeries := [], durationInMinutes := [] },
          utilTypes := [] } (Except.error "io error")
      = some (utilResults (Except.error "CPU metrics are not collected yet"),
          some ("CPU: " ++ String.intercalate "; "
            (percErrs (Except.error "CPU metrics are not collected yet")
              ++ ["io error"]))) :=
  results_error_aggregation.1 _
    (Except.error "CPU metrics are not collected yet") "io error" rfl rfl

/-- Witness for C10: the reference snapshot lacks the key `"u"` that the
last snapshot has. -/
theorem missing_reference_key_rate_uses_zero_witness :
    vget [] "u" = 0 ∧
    ∃ m vm,
      percentage
          { timeSeries :=
              [⟨0, []⟩, ⟨5, []⟩, ⟨10, []⟩, ⟨15, []⟩, ⟨20, []⟩, ⟨25, []⟩,
               ⟨30, []⟩, ⟨35, []⟩, ⟨40, []⟩, ⟨45, []⟩, ⟨50, []⟩,
               ⟨60, [("u", 30)]⟩],
            durationInMinutes := [1] }
        = some (Except.ok m) ∧
      lookupG m 1 = some vm ∧
      lookupG vm "u" = some (percEntryVal 30 0 ((60 : ℚ) - 0)) :=
  missing_reference_key_rate_uses_zero _ ⟨60, [("u", 30)]⟩ ⟨0, []⟩ 1 "u" 30
    rfl (by decide) (by decide) (by decide) rfl (by decide) (by decide) rfl

end Cagent
